import Mathlib

/-!
Verification of the NMatrix list-of-lists sparse storage core
(`src/ext/nmatrix/storage/list.cpp`).

A rank-`n` matrix is stored as a nesting of coordinate-keyed singly linked
lists: the root list is dimension 0, levels `0 .. rank-2` hold nested lists,
and level `rank-1` holds scalars.  The C code stores node values as untyped
pointers and tracks the nesting depth externally through the storage rank;
we model a node value as a tagged variant.

The single-level list primitives (`list_find`, `list_insert`, `list_remove`,
`list_eqeq_value`, ...) live in `util/sl_list.c`, which is not part of the
source under verification; those are modelled from the specification
(spec sections 4.1 and 4.4).  The storage-level functions are translated
directly from `list.cpp`, with source line numbers cited next to each.
-/

set_option maxRecDepth 8000

/-- A node value: either a leaf scalar or an owned nested list.  The source
keeps a `void*` here; the nesting depth (rank) decides the reading. -/
inductive LVal (α : Type) where
  | scalar : α → LVal α
  | sub : List (Nat × LVal α) → LVal α

/-- One nesting level: an ordered sequence of (coordinate key, value) nodes. -/
abbrev LIST (α : Type) := List (Nat × LVal α)

/-- Read a node value as a nested list, the way the source casts `n->val` to
`LIST*` at intermediate levels.  On a well-formed tree the `scalar` case is
never reached at an intermediate level; there the source would reinterpret a
scalar buffer as a list (undefined behaviour), modelled as the empty list. -/
def LVal.asList {α : Type} : LVal α → LIST α
  | LVal.scalar _ => []
  | LVal.sub l => l

/-- Modelled from the spec: `find(list, key)` returns the node with matching
key, else "not found"; never mutates (spec section 4.1, for the missing
`util/sl_list.c`).  We return the matched node's value. -/
def list_find {α : Type} : LIST α → Nat → Option (LVal α)
  | [], _ => none
  | (k, v) :: rest, key => if k = key then some v else list_find rest key

/-- Modelled from the spec: `insert(list, mode, key, value)` inserts
preserving ascending key order; find-or-create mode (`replace = false`)
returns the existing node if the key is present, otherwise links a new node
holding `value`; overwrite mode (`replace = true`) always installs `value`
at `key` (spec section 4.1, for the missing `util/sl_list.c`).  Returns the
updated list together with the resulting node's value. -/
def list_insert {α : Type} : LIST α → Bool → Nat → LVal α → LIST α × LVal α
  | [], _, key, val => ([(key, val)], val)
  | (k, v) :: rest, replace, key, val =>
    if key < k then ((key, val) :: (k, v) :: rest, val)
    else if key = k then
      if replace then ((key, val) :: rest, val)
      else ((k, v) :: rest, v)
    else
      let r := list_insert rest replace key val
      ((k, v) :: r.1, r.2)

/-- Modelled from the spec: `remove(list, key)` detaches and returns the
owned value at `key` if present, else returns "not found"; it does not
recurse into nested structure (spec section 4.1, for the missing
`util/sl_list.c`). -/
def list_remove {α : Type} : LIST α → Nat → LIST α × Option (LVal α)
  | [], _ => ([], none)
  | (k, v) :: rest, key =>
    if k = key then (rest, some v)
    else
      let r := list_remove rest key
      ((k, v) :: r.1, r.2)

/-- Replace the value held by the first node carrying `key`.  This renders
the in-place write the storage functions perform through the node pointer
returned by `list_insert`/`list_find`: mutating `n->val` updates the parent
list that contains `n`. -/
def list_replace_val {α : Type} : LIST α → Nat → LVal α → LIST α
  | [], _, _ => []
  | (k, v) :: rest, key, nv =>
    if k = key then (k, nv) :: rest
    else (k, v) :: list_replace_val rest key nv

/-- The storage record (`LIST_STORAGE`): rank, per-dimension extents, one
default scalar and the root list (`list.cpp` and spec section 3).  The
`dtype` tag and the dtype-indexed external tables are represented by the
scalar type parameter `α` and explicit comparison functions. -/
structure LIST_STORAGE (α : Type) where
  rank : Nat
  shape : List Nat
  default_val : α
  rows : LIST α

/-- The walk of `list_storage_ref` (`list.cpp` lines 140-155): follow
`list_find` through the coordinates; a missing node at any level
short-circuits to the default scalar; at the leaf level return the found
value or the default. -/
def list_storage_ref_go {α : Type} (dflt : α) : LIST α → List Nat → LVal α
  | _, [] => LVal.scalar dflt
  | l, [c] =>
    match list_find l c with
    | some v => v
    | none => LVal.scalar dflt
  | l, c :: c2 :: cs =>
    match list_find l c with
    | some v => list_storage_ref_go dflt v.asList (c2 :: cs)
    | none => LVal.scalar dflt

/-- `list_storage_ref` (`list.cpp` lines 140-155).  The source loop reads
`slice->coords[0] .. slice->coords[rank-1]`; callers pass a coordinate tuple
of length `rank`. -/
def list_storage_ref {α : Type} (s : LIST_STORAGE α) (coords : List Nat) : LVal α :=
  list_storage_ref_go s.default_val s.rows (coords.take s.rank)

/-- The walk of `list_storage_insert` (`list.cpp` lines 162-178): at levels
`0 .. rank-2` a find-or-create `list_insert` with a freshly created empty
list, then an overwrite `list_insert` of the value at the leaf level.  The
deeper mutations happen through the returned node pointer, rendered here by
writing the updated sublist back with `list_replace_val`. -/
def list_storage_insert_go {α : Type} (val : α) : LIST α → List Nat → LIST α × LVal α
  | l, [] => (l, LVal.scalar val)
  | l, [c] => list_insert l true c (LVal.scalar val)
  | l, c :: c2 :: cs =>
    let r := list_insert l false c (LVal.sub [])
    let r2 := list_storage_insert_go val r.2.asList (c2 :: cs)
    (list_replace_val r.1 c (LVal.sub r2.1), r2.2)

/-- `list_storage_insert` (`list.cpp` lines 162-178): always succeeds and
returns the stored leaf value. -/
def list_storage_insert {α : Type} (s : LIST_STORAGE α) (coords : List Nat) (val : α) :
    LIST_STORAGE α × LVal α :=
  let r := list_storage_insert_go val s.rows (coords.take s.rank)
  ({ s with rows := r.1 }, r.2)

/-- The walk of `list_storage_remove` (`list.cpp` lines 185-228): follow
`list_find` only (never creating); a missing node at any level makes the
whole operation a no-op returning "not found".  After a successful leaf
removal the source walks back up its stack of visited nodes and, when the
nested list `stack[r]->val` has become empty, executes
`free(list_remove(stack[r]->val, slice->coords[r]))` (line 218) -- removing
`coords[r]` from that just-emptied child list itself, not from the parent
list that contains the node. -/
def list_storage_remove_go {α : Type} : LIST α → List Nat → LIST α × Option (LVal α)
  | l, [] => (l, none)
  | l, [c] => list_remove l c
  | l, c :: c2 :: cs =>
    match list_find l c with
    | none => (l, none)
    | some v =>
      let r := list_storage_remove_go v.asList (c2 :: cs)
      match r.2 with
      | none => (list_replace_val l c (LVal.sub r.1), none)
      | some x =>
        if r.1.isEmpty then
          let pr := list_remove r.1 c
          (list_replace_val l c (LVal.sub pr.1), some x)
        else (list_replace_val l c (LVal.sub r.1), some x)

/-- `list_storage_remove` (`list.cpp` lines 185-228). -/
def list_storage_remove {α : Type} (s : LIST_STORAGE α) (coords : List Nat) :
    LIST_STORAGE α × Option (LVal α) :=
  let r := list_storage_remove_go s.rows (coords.take s.rank)
  ({ s with rows := r.1 }, r.2)

/-- `list_storage_get` (`list.cpp` lines 131-133): raises NotImplemented
unconditionally; rendered as an error result. -/
def list_storage_get {α : Type} (_s : LIST_STORAGE α) (_slice : List Nat) :
    Except String (LVal α) :=
  Except.error "This type of slicing not supported yet"

/-- Modelled from the spec: `storage_count_max_elements` (declared in the
missing `common.h`) is the product of the `rank` shape extents
(spec section 4.4). -/
def storage_count_max_elements (rank : Nat) (shape : List Nat) : Nat :=
  (shape.take rank).foldl (fun a b => a * b) 1

/-- Compare a leaf node value against a scalar with the external equality
function.  At the leaf level the source compares raw element buffers; a
nested list showing up there would be undefined behaviour, modelled as an
unequal outcome. -/
def scalar_matches {α : Type} (eq : α → α → Bool) : LVal α → α → Bool
  | LVal.scalar x, d => eq x d
  | LVal.sub _, _ => false

/-- Compare two leaf node values with the external equality function. -/
def scalar_pair_matches {α : Type} (eq : α → α → Bool) : LVal α → LVal α → Bool
  | LVal.scalar x, LVal.scalar y => eq x y
  | _, _ => false

/-- Modelled from the spec: `list_eqeq_value(list, scalar, dtype, recursions,
num_checked)` from the missing `util/sl_list.c` checks that every scalar
reachable in the tree equals the given scalar and counts the values visited
(spec section 4.4).  Returns (all equal, number of values visited). -/
def list_eqeq_value {α : Type} (eq : α → α → Bool) : Nat → LIST α → α → Bool × Nat
  | 0, l, d =>
    l.foldr (fun p acc => (scalar_matches eq p.2 d && acc.1, acc.2 + 1)) (true, 0)
  | n + 1, l, d =>
    l.foldr
      (fun p acc =>
        let r := list_eqeq_value eq n p.2.asList d
        (r.1 && acc.1, r.2 + acc.2))
      (true, 0)

/-- One lone node value (a key present on only one side) compared against the
other side's default scalar, with the values beneath it counted. -/
def lone_vs_default {α : Type} (eq : α → α → Bool) : Nat → LVal α → α → Bool × Nat
  | 0, v, d => (scalar_matches eq v d, 1)
  | n + 1, v, d => list_eqeq_value eq n v.asList d

/-- Modelled from the spec: `list_eqeq_list` from the missing
`util/sl_list.c` walks both lists in ascending-key lock-step at every
nesting level; a key present on only one side is compared against the other
side's default scalar; a key present on both sides is compared directly,
recursing into nested lists, or comparing scalars at the leaf level
(spec section 4.4).  Returns (equal, number of values visited). -/
def list_eqeq_list {α : Type} (eq : α → α → Bool) :
    Nat → LIST α → LIST α → α → α → Bool × Nat
  | _, [], [], _, _ => (true, 0)
  | n, [], (_, v2) :: rest2, ld, rd =>
    let r1 := lone_vs_default eq n v2 ld
    let r2 := list_eqeq_list eq n [] rest2 ld rd
    (r1.1 && r2.1, r1.2 + r2.2)
  | n, (_, v1) :: rest1, [], ld, rd =>
    let r1 := lone_vs_default eq n v1 rd
    let r2 := list_eqeq_list eq n rest1 [] ld rd
    (r1.1 && r2.1, r1.2 + r2.2)
  | n, (k1, v1) :: rest1, (k2, v2) :: rest2, ld, rd =>
    if k1 < k2 then
      let r1 := lone_vs_default eq n v1 rd
      let r2 := list_eqeq_list eq n rest1 ((k2, v2) :: rest2) ld rd
      (r1.1 && r2.1, r1.2 + r2.2)
    else if k2 < k1 then
      let r1 := lone_vs_default eq n v2 ld
      let r2 := list_eqeq_list eq n ((k1, v1) :: rest1) rest2 ld rd
      (r1.1 && r2.1, r1.2 + r2.2)
    else
      match n with
      | 0 =>
        let r2 := list_eqeq_list eq 0 rest1 rest2 ld rd
        (scalar_pair_matches eq v1 v2 && r2.1, r2.2 + 1)
      | m + 1 =>
        let r1 := list_eqeq_list eq m v1.asList v2.asList ld rd
        let r2 := list_eqeq_list eq (m + 1) rest1 rest2 ld rd
        (r1.1 && r2.1, r1.2 + r2.2)
termination_by n l1 l2 _ _ => (n, l1.length + l2.length)

/-- `list_storage_eqeq` (`list.cpp` lines 240-286).  The external
dtype-indexed element comparison `ElemEqEq[left->dtype][0]` is the `eq`
parameter; `max_elements`, the recursion depth `left->rank - 1` and the
defaults are taken from the operands exactly as in the source. -/
def list_storage_eqeq {α : Type} (eq : α → α → Bool)
    (left right : LIST_STORAGE α) : Bool :=
  let max_elements := storage_count_max_elements left.rank left.shape
  if left.rows.isEmpty then
    if right.rows.isEmpty then
      eq left.default_val right.default_val
    else
      let r := list_eqeq_value eq (left.rank - 1) right.rows left.default_val
      if !r.1 then false
      else if r.2 < max_elements then eq left.default_val right.default_val
      else true
  else if right.rows.isEmpty then
    let r := list_eqeq_value eq (left.rank - 1) left.rows right.default_val
    if !r.1 then false
    else if r.2 < max_elements then eq left.default_val right.default_val
    else true
  else
    let r := list_eqeq_list eq (left.rank - 1) left.rows right.rows
      left.default_val right.default_val
    if !r.1 then false
    else if r.2 < max_elements then eq left.default_val right.default_val
    else true

/-- Inner loop of `count_list_storage_nd_elements` (`list.cpp` lines
326-332): count the nodes of one row whose column key differs from the row
key. -/
def count_nd_row {α : Type} (i : Nat) : LIST α → Nat
  | [] => 0
  | (j, _) :: rest => (if i ≠ j then 1 else 0) + count_nd_row i rest

/-- Outer loop of `count_list_storage_nd_elements`. -/
def count_nd_rows {α : Type} : LIST α → Nat
  | [] => 0
  | (i, v) :: rest => count_nd_row i v.asList + count_nd_rows rest

/-- `count_list_storage_nd_elements` (`list.cpp` lines 318-335): raises
NotImplemented unless the rank is exactly 2, otherwise counts the stored
nodes lying off the diagonal. -/
def count_list_storage_nd_elements {α : Type} (s : LIST_STORAGE α) : Except String Nat :=
  if s.rank ≠ 2 then
    Except.error "non-diagonal element counting only defined for rank = 2"
  else Except.ok (count_nd_rows s.rows)

/-- Leaf-level loop of `list_storage_cast_copy_contents_dense_template`
(`list.cpp` lines 415-431, the `recursions == 0` branch): walk `n` dense
cells left to right from flat position `pos`, keyed `coord, coord+1, ...`;
an element equal to the zero value is elided, any other element becomes a
leaf node (appended in ascending key order, as the source's
`list_insert`/`list_insert_after` fast path does).  Returns the list built,
the next flat position, and whether any node was inserted (`added`). -/
def dense_leaf_loop {α : Type} [DecidableEq α] (rhs : Nat → α) (zero : α) :
    Nat → Nat → Nat → LIST α × Nat × Bool
  | 0, _, pos => ([], pos, false)
  | n + 1, coord, pos =>
    let r := dense_leaf_loop rhs zero n (coord + 1) (pos + 1)
    if rhs pos ≠ zero then ((coord, LVal.scalar (rhs pos)) :: r.1, r.2.1, true)
    else r

/-- Intermediate-level loop of `list_storage_cast_copy_contents_dense_template`
(`list.cpp` lines 433-444): for each coordinate build a candidate sub-list
through a full pass of the level below (`sub`), attach it only when that
pass reported `added_list`, and discard it otherwise.  The source line
`added = (added || added_list);` is commented out (line 443), so the
`added` flag returned by an intermediate-level pass is never set; this loop
faithfully propagates the initial `false`.  The source's trailing `--pos`
of the callee cancels against the loop's `++pos` (`size_t` wraparound makes
the cancellation exact), so the next iteration resumes at the position the
callee returned. -/
def dense_inter_loop {α : Type} (sub : Nat → LIST α × Nat × Bool) :
    Nat → Nat → Nat → LIST α × Nat × Bool
  | 0, _, pos => ([], pos, false)
  | n + 1, coord, pos =>
    let s := sub pos
    let r := dense_inter_loop sub n (coord + 1) s.2.1
    if s.2.2 then ((coord, LVal.sub s.1) :: r.1, r.2.1, r.2.2)
    else r

/-- One full pass of `list_storage_cast_copy_contents_dense_template` at a
given `recursions` level: loop the extent `shape[rank-1-recursions]` of that
level's dimension starting at coordinate 0 (`list.cpp` line 412). -/
def dense_pass {α : Type} [DecidableEq α] (rhs : Nat → α) (zero : α)
    (shape : List Nat) (rank : Nat) : Nat → Nat → LIST α × Nat × Bool
  | 0, pos => dense_leaf_loop rhs zero (shape.getD (rank - 1) 0) 0 pos
  | r + 1, pos =>
    dense_inter_loop (fun p => dense_pass rhs zero shape rank r p)
      (shape.getD (rank - 1 - (r + 1)) 0) 0 pos

/-- Dense-to-sparse bulk construction (`list.cpp` lines 405-451): the
top-level call builds the root list with `recursions = rank - 1` from flat
position 0.  The source compares `rhs[pos] != zero` against the zero
element and casts the copied element through the external dtype conversion;
the construction is dtype-generic, modelled here at a single scalar type. -/
def list_storage_cast_copy_contents_dense {α : Type} [DecidableEq α]
    (rhs : Nat → α) (zero : α) (shape : List Nat) (rank : Nat) : LIST α :=
  (dense_pass rhs zero shape rank (rank - 1) 0).1

/-- Strict ascending-key order within one list level, phrased as: every key
is a strict lower bound of all keys after it.  This is the data-model
invariant of spec section 3 ("keys strictly increasing, no duplicate keys
within one list"). -/
def keys_above {α : Type} (k : Nat) (l : LIST α) : Bool :=
  l.all (fun p => k < p.1)

/-- One list level has strictly ascending keys. -/
def sortedKeys {α : Type} : LIST α → Bool
  | [] => true
  | (k, _) :: rest => keys_above k rest && sortedKeys rest

/-- All list levels of a tree have strictly ascending keys, down to `n`
further nesting levels below the given one. -/
def sortedTo {α : Type} : Nat → LIST α → Bool
  | 0, l => sortedKeys l
  | n + 1, l => sortedKeys l && l.all (fun p => sortedTo n p.2.asList)

/-- Depth well-formedness: with `n` further levels below, a level's nodes
hold scalars exactly when `n = 0` and nested lists otherwise
(spec section 3: "Nesting depth from the root List to a leaf scalar equals
rank - 1"). -/
def wfTo {α : Type} : Nat → LIST α → Bool
  | 0, l =>
    l.all (fun p => match p.2 with | LVal.scalar _ => true | LVal.sub _ => false)
  | n + 1, l =>
    l.all (fun p => match p.2 with | LVal.scalar _ => false | LVal.sub l2 => wfTo n l2)

/-- A coordinate tuple has a fully materialised node chain: `list_find`
succeeds at every intermediate level and at the leaf.  Mirrors the walk of
`list_storage_ref` / `list_storage_remove`; its negation is the "never
inserted / node chain absent" condition of the claims. -/
def stored_at_go {α : Type} : LIST α → List Nat → Bool
  | _, [] => false
  | l, [c] => (list_find l c).isSome
  | l, c :: c2 :: cs =>
    match list_find l c with
    | some v => stored_at_go v.asList (c2 :: cs)
    | none => false

/-- `stored_at s coords`: the storage holds an explicit node chain for the
coordinate tuple. -/
def stored_at {α : Type} (s : LIST_STORAGE α) (coords : List Nat) : Bool :=
  stored_at_go s.rows (coords.take s.rank)

/-- No empty intermediate list is reachable in a tree with `n` intermediate
levels below the given one: every node at an intermediate level holds a
non-empty nested list (the pruning invariant of spec section 3). -/
def no_empty_intermediate {α : Type} : Nat → LIST α → Bool
  | 0, _ => true
  | n + 1, l =>
    l.all (fun p => !p.2.asList.isEmpty && no_empty_intermediate n p.2.asList)

/-! ## Lemmas about the single-level list primitives -/

theorem list_insert_snd_true {α : Type} (l : LIST α) (c : Nat) (w : LVal α) :
    (list_insert l true c w).2 = w := by
  induction l with
  | nil => rfl
  | cons p rest ih =>
    obtain ⟨k, v⟩ := p
    by_cases h1 : c < k
    · simp [list_insert, h1]
    · by_cases h2 : c = k
      · simp [list_insert, h1, h2]
      · simp [list_insert, h1, h2, ih]

theorem list_find_insert {α : Type} (l : LIST α) (b : Bool) (c : Nat) (w : LVal α) :
    list_find (list_insert l b c w).1 c = some (list_insert l b c w).2 := by
  induction l with
  | nil => simp [list_insert, list_find]
  | cons p rest ih =>
    obtain ⟨k, v⟩ := p
    by_cases h1 : c < k
    · simp [list_insert, list_find, h1]
    · by_cases h2 : c = k
      · cases b <;> simp [list_insert, list_find, h1, h2]
      · have h2s : ¬(k = c) := fun h => h2 h.symm
        simp [list_insert, list_find, h1, h2, h2s, ih]

theorem list_find_replace {α : Type} (l : LIST α) (c : Nat) (u w : LVal α)
    (h : list_find l c = some u) :
    list_find (list_replace_val l c w) c = some w := by
  induction l with
  | nil => simp [list_find] at h
  | cons p rest ih =>
    obtain ⟨k, v⟩ := p
    by_cases hk : k = c
    · simp [list_replace_val, list_find, hk]
    · simp only [list_find, if_neg hk] at h
      simp [list_replace_val, list_find, hk, ih h]

theorem list_replace_self {α : Type} (l : LIST α) (c : Nat) (v : LVal α)
    (h : list_find l c = some v) : list_replace_val l c v = l := by
  induction l with
  | nil => rfl
  | cons p rest ih =>
    obtain ⟨k, x⟩ := p
    by_cases hk : k = c
    · simp only [list_find, if_pos hk, Option.some.injEq] at h
      simp [list_replace_val, hk, h]
    · simp only [list_find, if_neg hk] at h
      simp [list_replace_val, hk, ih h]

theorem list_remove_of_find_none {α : Type} (l : LIST α) (c : Nat)
    (h : list_find l c = none) : list_remove l c = (l, none) := by
  induction l with
  | nil => rfl
  | cons p rest ih =>
    obtain ⟨k, v⟩ := p
    by_cases hk : k = c
    · simp [list_find, hk] at h
    · simp only [list_find, if_neg hk] at h
      simp [list_remove, hk, ih h]

theorem list_find_none_of_above {α : Type} (l : LIST α) (k m : Nat)
    (hab : keys_above k l = true) (hm : m ≤ k) : list_find l m = none := by
  induction l with
  | nil => rfl
  | cons p rest ih =>
    obtain ⟨k1, v⟩ := p
    simp only [keys_above, List.all_cons, Bool.and_eq_true, decide_eq_true_eq] at hab
    have hne : ¬(k1 = m) := by omega
    simpa [list_find, hne] using ih (by simpa [keys_above] using hab.2)

theorem sortedKeys_cons {α : Type} (k : Nat) (v : LVal α) (rest : LIST α)
    (h : sortedKeys ((k, v) :: rest) = true) :
    keys_above k rest = true ∧ sortedKeys rest = true := by
  simpa [sortedKeys, Bool.and_eq_true] using h

/-- After an overwrite insert of `w` at `c` into a sorted level, removing `c`
returns exactly `w`, and the key `c` is gone afterwards. -/
theorem list_remove_insert_true {α : Type} (l : LIST α) (c : Nat) (w : LVal α)
    (hs : sortedKeys l = true) :
    (list_remove (list_insert l true c w).1 c).2 = some w ∧
    list_find (list_remove (list_insert l true c w).1 c).1 c = none := by
  induction l with
  | nil => simp [list_insert, list_remove, list_find]
  | cons p rest ih =>
    obtain ⟨k, v⟩ := p
    obtain ⟨hab, hrest⟩ := sortedKeys_cons k v rest hs
    by_cases h1 : c < k
    · refine ⟨by simp [list_insert, h1, list_remove], ?_⟩
      have hkc : ¬(k = c) := by omega
      have : list_find rest c = none :=
        list_find_none_of_above rest k c hab (by omega)
      simp [list_insert, h1, list_remove, list_find, hkc, this]
    · by_cases h2 : c = k
      · refine ⟨by simp [list_insert, h1, h2, list_remove], ?_⟩
        have hnone : list_find rest k = none :=
          list_find_none_of_above rest k k hab (le_refl k)
        simp [list_insert, h1, h2, list_remove, hnone]
      · have hkc : ¬(k = c) := fun h => h2 h.symm
        obtain ⟨ih1, ih2⟩ := ih hrest
        refine ⟨?_, ?_⟩
        · simp [list_insert, h1, h2, list_remove, hkc, ih1]
        · simp [list_insert, h1, h2, list_remove, list_find, hkc, ih2]

/-! ## Lemmas about the whole-tree predicates -/

theorem sortedTo_nil {α : Type} (n : Nat) : sortedTo n ([] : LIST α) = true := by
  cases n <;> simp [sortedTo, sortedKeys]

theorem sortedTo_cons {α : Type} (n : Nat) (k : Nat) (v : LVal α) (rest : LIST α)
    (h : sortedTo (n + 1) ((k, v) :: rest) = true) :
    sortedTo n v.asList = true ∧ sortedTo (n + 1) rest = true := by
  simp only [sortedTo, Bool.and_eq_true, List.all_cons] at h
  refine ⟨h.2.1, ?_⟩
  simp only [sortedTo, Bool.and_eq_true]
  exact ⟨(sortedKeys_cons k v rest h.1).2, h.2.2⟩

/-- The node value a find-or-create insert of a fresh empty list hands back
is either that empty list or a value already stored at this level; in a
tree sorted to depth `n + 1` its own sublist is sorted to depth `n`. -/
theorem sorted_sub_insert_false {α : Type} (l : LIST α) (c : Nat) (n : Nat)
    (hs : sortedTo (n + 1) l = true) :
    sortedTo n ((list_insert l false c (LVal.sub [])).2).asList = true := by
  induction l with
  | nil => simpa [list_insert, LVal.asList] using sortedTo_nil n
  | cons p rest ih =>
    obtain ⟨k, v⟩ := p
    obtain ⟨hv, hrest⟩ := sortedTo_cons n k v rest hs
    by_cases h1 : c < k
    · simpa [list_insert, h1, LVal.asList] using sortedTo_nil n
    · by_cases h2 : c = k
      · simpa [list_insert, h1, h2] using hv
      · simpa [list_insert, h1, h2] using ih hrest

/-- In a depth-well-formed level with nesting below it, any found node value
is a nested list that is itself depth-well-formed. -/
theorem wf_find_sub {α : Type} (l : LIST α) (c : Nat) (n : Nat) (v : LVal α)
    (hwf : wfTo (n + 1) l = true) (hf : list_find l c = some v) :
    ∃ l2, v = LVal.sub l2 ∧ wfTo n l2 = true := by
  induction l with
  | nil => simp [list_find] at hf
  | cons p rest ih =>
    obtain ⟨k, x⟩ := p
    simp only [wfTo, List.all_cons, Bool.and_eq_true] at hwf
    by_cases hk : k = c
    · simp only [list_find, if_pos hk, Option.some.injEq] at hf
      cases x with
      | scalar y => simp at hwf
      | sub l2 => exact ⟨l2, hf ▸ rfl, by simpa using hwf.1⟩
    · simp only [list_find, if_neg hk] at hf
      exact ih (by simpa [wfTo] using hwf.2) hf

/-! ## The accessor-protocol walk lemmas -/

/-- Inserting then dereferencing the same coordinate tuple: the walk built by
`list_storage_insert_go` is found again by `list_storage_ref_go`, and the
insert returns the stored scalar. -/
theorem insert_ref_go {α : Type} (d : α) :
    ∀ (cs : List Nat) (l : LIST α) (v : α), cs ≠ [] →
    (list_storage_insert_go v l cs).2 = LVal.scalar v ∧
    list_storage_ref_go d (list_storage_insert_go v l cs).1 cs = LVal.scalar v := by
  intro cs
  induction cs with
  | nil => intro l v h; exact absurd rfl h
  | cons c cs2 ih =>
    intro l v _
    cases cs2 with
    | nil =>
      refine ⟨by simp [list_storage_insert_go, list_insert_snd_true], ?_⟩
      simp only [list_storage_insert_go, list_storage_ref_go]
      rw [list_find_insert, list_insert_snd_true]
    | cons c2 cs3 =>
      obtain ⟨ih1, ih2⟩ :=
        ih (list_insert l false c (LVal.sub [])).2.asList v (by simp)
      refine ⟨by simpa [list_storage_insert_go] using ih1, ?_⟩
      simp only [list_storage_insert_go, list_storage_ref_go]
      rw [list_find_replace _ _ _ _ (list_find_insert l false c (LVal.sub []))]
      simpa [LVal.asList] using ih2

/-- One step of `list_storage_remove_go` at an intermediate level when the
node is found and the deeper removal succeeds: the mutated sublist is
written back through the node, and the source's walk-back prune
(`list_remove` on the just-emptied child list itself) leaves that sublist
as it is. -/
theorem remove_go_cons {α : Type} (l : LIST α) (c c2 : Nat) (cs : List Nat)
    (v : LVal α) (sub : LIST α) (rm : LVal α)
    (hfind : list_find l c = some v)
    (hrec : list_storage_remove_go v.asList (c2 :: cs) = (sub, some rm)) :
    list_storage_remove_go l (c :: c2 :: cs)
      = (list_replace_val l c (LVal.sub sub), some rm) := by
  simp only [list_storage_remove_go, hfind, hrec]
  by_cases he : sub.isEmpty
  · have he' : sub = [] := by simpa [List.isEmpty_iff] using he
    simp [he, he', list_remove]
  · simp [he]

/-- Inserting, removing, then dereferencing the same coordinate tuple on a
tree with strictly ascending keys: the removal hands back the inserted
scalar and the dereference falls through to the default. -/
theorem insert_remove_ref_go {α : Type} (d : α) :
    ∀ (cs : List Nat) (l : LIST α) (v : α), cs ≠ [] →
    sortedTo (cs.length - 1) l = true →
    (list_storage_remove_go (list_storage_insert_go v l cs).1 cs).2
      = some (LVal.scalar v) ∧
    list_storage_ref_go d
      (list_storage_remove_go (list_storage_insert_go v l cs).1 cs).1 cs
      = LVal.scalar d := by
  intro cs
  induction cs with
  | nil => intro l v h; exact absurd rfl h
  | cons c cs2 ih =>
    intro l v _ hs
    cases cs2 with
    | nil =>
      have hsk : sortedKeys l = true := by simpa [sortedTo] using hs
      obtain ⟨h1, h2⟩ := list_remove_insert_true l c (LVal.scalar v) hsk
      refine ⟨by simpa [list_storage_insert_go, list_storage_remove_go] using h1, ?_⟩
      simp only [list_storage_insert_go, list_storage_remove_go, list_storage_ref_go]
      rw [h2]
    | cons c2 cs3 =>
      have hs1 : sortedTo (cs3.length + 1) l = true := by simpa using hs
      have hsub : sortedTo cs3.length
          ((list_insert l false c (LVal.sub [])).2).asList = true :=
        sorted_sub_insert_false l c cs3.length hs1
      obtain ⟨ih1, ih2⟩ :=
        ih (list_insert l false c (LVal.sub [])).2.asList v (by simp)
          (by simpa using hsub)
      set I := list_storage_insert_go v
        (list_insert l false c (LVal.sub [])).2.asList (c2 :: cs3) with hI
      set R := list_storage_remove_go I.1 (c2 :: cs3) with hR
      have hRg : list_storage_remove_go I.1 (c2 :: cs3)
          = (R.1, some (LVal.scalar v)) := by
        rw [← hR, ← ih1]
      have hIns : list_storage_insert_go v l (c :: c2 :: cs3)
          = (list_replace_val (list_insert l false c (LVal.sub [])).1 c
              (LVal.sub I.1), I.2) := by
        rw [hI]
        rfl
      have hfind : list_find
          (list_replace_val (list_insert l false c (LVal.sub [])).1 c
            (LVal.sub I.1)) c = some (LVal.sub I.1) :=
        list_find_replace _ _ _ _ (list_find_insert l false c (LVal.sub []))
      have hres := remove_go_cons
        (list_replace_val (list_insert l false c (LVal.sub [])).1 c (LVal.sub I.1))
        c c2 cs3 (LVal.sub I.1) R.1 (LVal.scalar v) hfind hRg
      rw [hIns, hres]
      refine ⟨rfl, ?_⟩
      simp only [list_storage_ref_go]
      rw [list_find_replace _ _ _ _ hfind]
      exact ih2

/-- Dereferencing a coordinate tuple whose node chain is absent at some
level falls through to the default scalar. -/
theorem ref_missing_go {α : Type} (d : α) :
    ∀ (cs : List Nat) (l : LIST α), stored_at_go l cs = false →
    list_storage_ref_go d l cs = LVal.scalar d := by
  intro cs
  induction cs with
  | nil => intro l _; rfl
  | cons c cs2 ih =>
    intro l habs
    cases cs2 with
    | nil =>
      have hnone : list_find l c = none := by
        cases hf : list_find l c with
        | none => rfl
        | some v => simp [stored_at_go, hf] at habs
      simp [list_storage_ref_go, hnone]
    | cons c2 cs3 =>
      cases hf : list_find l c with
      | none => simp [list_storage_ref_go, hf]
      | some v =>
        simp only [stored_at_go, hf] at habs
        simp only [list_storage_ref_go, hf]
        exact ih v.asList habs

/-- Removing at a coordinate tuple whose node chain is absent at some level
is a pure no-op on a depth-well-formed tree: nothing is returned and the
tree is unchanged. -/
theorem remove_missing_go {α : Type} :
    ∀ (cs : List Nat) (l : LIST α), cs ≠ [] →
    wfTo (cs.length - 1) l = true →
    stored_at_go l cs = false →
    list_storage_remove_go l cs = (l, none) := by
  intro cs
  induction cs with
  | nil => intro l h; exact absurd rfl h
  | cons c cs2 ih =>
    intro l _ hwf habs
    cases cs2 with
    | nil =>
      have hnone : list_find l c = none := by
        cases hf : list_find l c with
        | none => rfl
        | some v => simp [stored_at_go, hf] at habs
      simpa [list_storage_remove_go] using list_remove_of_find_none l c hnone
    | cons c2 cs3 =>
      cases hf : list_find l c with
      | none => simp [list_storage_remove_go, hf]
      | some v =>
        simp only [stored_at_go, hf] at habs
        have hwf1 : wfTo (cs3.length + 1) l = true := by simpa using hwf
        obtain ⟨l2, hv, hwf2⟩ := wf_find_sub l c cs3.length v hwf1 hf
        have hrec : list_storage_remove_go v.asList (c2 :: cs3)
            = (v.asList, none) :=
          ih v.asList (by simp) (by simpa [hv, LVal.asList] using hwf2) habs
        have hself : list_replace_val l c (LVal.sub v.asList) = l := by
          have : LVal.sub v.asList = v := by rw [hv]; rfl
          rw [this]
          exact list_replace_self l c v hf
        simp only [list_storage_remove_go, hf, hrec, hself]

/-! ## Lemmas about non-diagonal element counting -/

theorem count_nd_row_filter {α : Type} (i : Nat) (m : LIST α) :
    count_nd_row i m = (m.filter (fun q => decide (i ≠ q.1))).length := by
  induction m with
  | nil => rfl
  | cons q rest ih =>
    obtain ⟨j, w⟩ := q
    by_cases hij : i ≠ j
    · simp [count_nd_row, List.filter, hij, ih, Nat.add_comm]
    · simp [count_nd_row, List.filter, hij, ih]

theorem count_nd_rows_sum {α : Type} (l : LIST α) :
    count_nd_rows l
      = (l.map (fun p => (p.2.asList.filter (fun q => decide (p.1 ≠ q.1))).length)).sum := by
  induction l with
  | nil => rfl
  | cons p rest ih =>
    obtain ⟨i, v⟩ := p
    simp [count_nd_rows, count_nd_row_filter, ih]

/-! ## Claim theorems -/

/-- C1: the claim says that after `remove(storage, coords)` deletes a leaf
value, no empty intermediate list remains reachable from the root.  The
code violates this: on a rank-2 storage with default 0, inserting 5 at
(0,0) and then removing (0,0) does return the removed value, yet leaves the
root holding a node whose nested list is empty — the walk-back at
`list.cpp` line 218 removes `coords[r]` from the just-emptied child list
(a no-op) instead of removing the child's node from its parent list. -/
theorem C1_no_pruning_after_remove :
    (list_storage_remove
        (list_storage_insert ⟨2, [3, 3], (0 : Int), []⟩ [0, 0] 5).1 [0, 0]).2
      = some (LVal.scalar 5)
    ∧ (list_storage_remove
        (list_storage_insert ⟨2, [3, 3], (0 : Int), []⟩ [0, 0] 5).1 [0, 0]).1.rows
      = [(0, LVal.sub [])]
    ∧ no_empty_intermediate 1
        (list_storage_remove
          (list_storage_insert ⟨2, [3, 3], (0 : Int), []⟩ [0, 0] 5).1 [0, 0]).1.rows
      = false :=
  ⟨rfl, rfl, rfl⟩

/-- C2: the claim says dense-to-sparse bulk construction yields, for every
rank, a tree holding exactly the non-zero input elements.  The code
violates this for rank ≥ 3: with shape [1,1,1] and the single dense element
5 (zero value 0), the constructed root list is empty — the line
`added = (added || added_list);` (`list.cpp` line 443) is commented out, so
an intermediate-level pass always reports `added == false` and its parent
discards the (non-empty) candidate sub-list it built. -/
theorem C2_dense_rank3_drops_nonzero :
    (fun _ : Nat => (5 : Int)) 0 ≠ 0
    ∧ list_storage_cast_copy_contents_dense (fun _ : Nat => (5 : Int)) 0 [1, 1, 1] 3
      = [] :=
  ⟨by decide, rfl⟩

/-- C3: for every storage whose tree satisfies the ascending-key data-model
invariant and every coordinate tuple of length rank, `insert(S, c, v)`
followed by `remove(S, c)` returns `v`, and a subsequent `ref(S, c)`
returns the default scalar of `S`. -/
theorem C3_insert_remove_roundtrip {α : Type} (s : LIST_STORAGE α)
    (coords : List Nat) (v : α)
    (hlen : coords.length = s.rank) (hrk : 1 ≤ s.rank)
    (hsort : sortedTo (s.rank - 1) s.rows = true) :
    (list_storage_remove (list_storage_insert s coords v).1 coords).2
      = some (LVal.scalar v)
    ∧ list_storage_ref
        (list_storage_remove (list_storage_insert s coords v).1 coords).1 coords
      = LVal.scalar s.default_val := by
  have htake : coords.take s.rank = coords := by
    rw [← hlen]; exact List.take_length coords
  have hne : coords ≠ [] := by
    intro h
    rw [h] at hlen
    simp at hlen
    omega
  obtain ⟨h1, h2⟩ := insert_remove_ref_go s.default_val coords s.rows v hne
    (by rw [hlen]; exact hsort)
  constructor
  · simpa [list_storage_remove, list_storage_insert, htake] using h1
  · simpa [list_storage_ref, list_storage_remove, list_storage_insert, htake] using h2

/-- Witness for C3 at the spec's concrete scenario: rank 2, shape [3,3],
default 0, value 5 at (0,0). -/
theorem C3_roundtrip_witness :
    ([0, 0] : List Nat).length = (⟨2, [3, 3], (0 : Int), []⟩ : LIST_STORAGE Int).rank
    ∧ 1 ≤ (⟨2, [3, 3], (0 : Int), []⟩ : LIST_STORAGE Int).rank
    ∧ sortedTo ((⟨2, [3, 3], (0 : Int), []⟩ : LIST_STORAGE Int).rank - 1)
        (⟨2, [3, 3], (0 : Int), []⟩ : LIST_STORAGE Int).rows = true
    ∧ ((list_storage_remove
          (list_storage_insert ⟨2, [3, 3], (0 : Int), []⟩ [0, 0] 5).1 [0, 0]).2
        = some (LVal.scalar 5)
      ∧ list_storage_ref
          (list_storage_remove
            (list_storage_insert ⟨2, [3, 3], (0 : Int), []⟩ [0, 0] 5).1 [0, 0]).1
          [0, 0]
        = LVal.scalar (0 : Int)) :=
  ⟨rfl, by decide, rfl,
    C3_insert_remove_roundtrip ⟨2, [3, 3], 0, []⟩ [0, 0] 5 rfl (by decide) rfl⟩

/-- C4: dereferencing a coordinate tuple with no materialised node chain
(absent at an intermediate level or at the leaf) returns the storage's
default scalar; the lookup is a pure function of the storage and mutates
nothing. -/
theorem C4_ref_missing_default {α : Type} (s : LIST_STORAGE α) (coords : List Nat)
    (habs : stored_at s coords = false) :
    list_storage_ref s coords = LVal.scalar s.default_val := by
  have h := ref_missing_go s.default_val (coords.take s.rank) s.rows
    (by simpa [stored_at] using habs)
  simpa [list_storage_ref] using h

/-- Witness for C4: an empty rank-2 storage dereferenced at (1,1). -/
theorem C4_ref_missing_witness :
    stored_at (⟨2, [3, 3], (0 : Int), []⟩ : LIST_STORAGE Int) [1, 1] = false
    ∧ list_storage_ref (⟨2, [3, 3], (0 : Int), []⟩ : LIST_STORAGE Int) [1, 1]
      = LVal.scalar (0 : Int) :=
  ⟨rfl, C4_ref_missing_default ⟨2, [3, 3], 0, []⟩ [1, 1] rfl⟩

/-- C5: `insert(S, c, v)` always succeeds for a coordinate tuple of length
rank, returns the stored value, and a subsequent `ref(S, c)` returns `v`. -/
theorem C5_insert_then_ref {α : Type} (s : LIST_STORAGE α) (coords : List Nat)
    (v : α) (hlen : coords.length = s.rank) (hrk : 1 ≤ s.rank) :
    (list_storage_insert s coords v).2 = LVal.scalar v
    ∧ list_storage_ref (list_storage_insert s coords v).1 coords
      = LVal.scalar v := by
  have htake : coords.take s.rank = coords := by
    rw [← hlen]; exact List.take_length coords
  have hne : coords ≠ [] := by
    intro h
    rw [h] at hlen
    simp at hlen
    omega
  obtain ⟨h1, h2⟩ := insert_ref_go s.default_val coords s.rows v hne
  constructor
  · simpa [list_storage_insert, htake] using h1
  · simpa [list_storage_ref, list_storage_insert, htake] using h2

/-- Witness for C5: insert 7 at (1,2) into an empty rank-2 storage. -/
theorem C5_insert_then_ref_witness :
    ([1, 2] : List Nat).length = (⟨2, [3, 3], (0 : Int), []⟩ : LIST_STORAGE Int).rank
    ∧ 1 ≤ (⟨2, [3, 3], (0 : Int), []⟩ : LIST_STORAGE Int).rank
    ∧ ((list_storage_insert ⟨2, [3, 3], (0 : Int), []⟩ [1, 2] 7).2
        = LVal.scalar (7 : Int)
      ∧ list_storage_ref
          (list_storage_insert ⟨2, [3, 3], (0 : Int), []⟩ [1, 2] 7).1 [1, 2]
        = LVal.scalar (7 : Int)) :=
  ⟨rfl, by decide, C5_insert_then_ref ⟨2, [3, 3], 0, []⟩ [1, 2] 7 rfl (by decide)⟩

/-- C6: on a depth-well-formed storage, removing at a coordinate tuple with
no stored value (node chain missing at some intermediate level or at the
leaf) returns the "not found" marker and leaves the storage completely
unchanged. -/
theorem C6_remove_missing_noop {α : Type} (s : LIST_STORAGE α) (coords : List Nat)
    (hlen : coords.length = s.rank) (hrk : 1 ≤ s.rank)
    (hwf : wfTo (s.rank - 1) s.rows = true)
    (habs : stored_at s coords = false) :
    list_storage_remove s coords = (s, none) := by
  have htake : coords.take s.rank = coords := by
    rw [← hlen]; exact List.take_length coords
  have hne : coords ≠ [] := by
    intro h
    rw [h] at hlen
    simp at hlen
    omega
  have h := remove_missing_go coords s.rows hne (by rw [hlen]; exact hwf)
    (by simpa [stored_at, htake] using habs)
  simp only [list_storage_remove, htake, h]

/-- Witness for C6: a storage holding one element at (0,1), removal
attempted at the absent leaf (0,0). -/
theorem C6_remove_missing_witness :
    ([0, 0] : List Nat).length
      = (⟨2, [3, 3], (0 : Int), [(0, LVal.sub [(1, LVal.scalar 5)])]⟩
          : LIST_STORAGE Int).rank
    ∧ 1 ≤ (⟨2, [3, 3], (0 : Int), [(0, LVal.sub [(1, LVal.scalar 5)])]⟩
          : LIST_STORAGE Int).rank
    ∧ wfTo ((⟨2, [3, 3], (0 : Int), [(0, LVal.sub [(1, LVal.scalar 5)])]⟩
          : LIST_STORAGE Int).rank - 1)
        (⟨2, [3, 3], (0 : Int), [(0, LVal.sub [(1, LVal.scalar 5)])]⟩
          : LIST_STORAGE Int).rows = true
    ∧ stored_at (⟨2, [3, 3], (0 : Int), [(0, LVal.sub [(1, LVal.scalar 5)])]⟩
          : LIST_STORAGE Int) [0, 0] = false
    ∧ list_storage_remove
        (⟨2, [3, 3], (0 : Int), [(0, LVal.sub [(1, LVal.scalar 5)])]⟩
          : LIST_STORAGE Int) [0, 0]
      = (⟨2, [3, 3], (0 : Int), [(0, LVal.sub [(1, LVal.scalar 5)])]⟩, none) :=
  ⟨rfl, by decide, rfl, rfl,
    C6_remove_missing_noop ⟨2, [3, 3], 0, [(0, LVal.sub [(1, LVal.scalar 5)])]⟩
      [0, 0] rfl (by decide) rfl rfl⟩

/-- C7: for storages of equal rank and shape, if both root lists are empty,
`eqeq` returns true exactly when the two default scalars compare equal; if
exactly one root list is empty, `eqeq` returns true exactly when every
value reachable in the non-empty side equals the other side's default and,
whenever fewer than `max_elements` values were visited by that walk, the
two defaults also compare equal. -/
theorem C7_eqeq_empty_cases {α : Type} (eq : α → α → Bool)
    (left right : LIST_STORAGE α)
    (_hrk : right.rank = left.rank) (_hsh : right.shape = left.shape) :
    (left.rows = [] → right.rows = [] →
      list_storage_eqeq eq left right = eq left.default_val right.default_val)
    ∧ (left.rows = [] → right.rows ≠ [] →
      (list_storage_eqeq eq left right = true ↔
        (list_eqeq_value eq (left.rank - 1) right.rows left.default_val).1 = true
        ∧ ((list_eqeq_value eq (left.rank - 1) right.rows left.default_val).2
              < storage_count_max_elements left.rank left.shape
            → eq left.default_val right.default_val = true)))
    ∧ (right.rows = [] → left.rows ≠ [] →
      (list_storage_eqeq eq left right = true ↔
        (list_eqeq_value eq (left.rank - 1) left.rows right.default_val).1 = true
        ∧ ((list_eqeq_value eq (left.rank - 1) left.rows right.default_val).2
              < storage_count_max_elements left.rank left.shape
            → eq left.default_val right.default_val = true))) := by
  refine ⟨?_, ?_, ?_⟩
  · intro h1 h2
    simp [list_storage_eqeq, h1, h2]
  · intro h1 h2
    have h2e : right.rows.isEmpty = false := by
      cases hrw : right.rows with
      | nil => exact absurd hrw h2
      | cons a t => rfl
    simp only [list_storage_eqeq, h1, List.isEmpty_nil, if_true, h2e,
      Bool.false_eq_true, if_false]
    rcases hval : list_eqeq_value eq (left.rank - 1) right.rows left.default_val
      with ⟨b, cnt⟩
    cases b <;>
      by_cases hc : cnt < storage_count_max_elements left.rank left.shape <;>
      simp [hc]
  · intro h1 h2
    have h2e : left.rows.isEmpty = false := by
      cases hrw : left.rows with
      | nil => exact absurd hrw h2
      | cons a t => rfl
    simp only [list_storage_eqeq, h1, List.isEmpty_nil, if_true, h2e,
      Bool.false_eq_true, if_false]
    rcases hval : list_eqeq_value eq (left.rank - 1) left.rows right.default_val
      with ⟨b, cnt⟩
    cases b <;>
      by_cases hc : cnt < storage_count_max_elements left.rank left.shape <;>
      simp [hc]

/-- Witness for C7: a both-empty pair with differing defaults, and an
empty/non-empty pair whose stored value equals the left default. -/
theorem C7_eqeq_empty_witness :
    (list_storage_eqeq (fun a b => a == b)
        (⟨2, [2, 2], (0 : Int), []⟩ : LIST_STORAGE Int) ⟨2, [2, 2], 1, []⟩
      = ((0 : Int) == 1))
    ∧ (list_storage_eqeq (fun a b => a == b)
        (⟨2, [2, 2], (0 : Int), []⟩ : LIST_STORAGE Int)
        ⟨2, [2, 2], 0, [(0, LVal.sub [(0, LVal.scalar 0)])]⟩ = true ↔
      (list_eqeq_value (fun a b => a == b) (2 - 1)
          [(0, LVal.sub [(0, LVal.scalar (0 : Int))])] (0 : Int)).1 = true
      ∧ ((list_eqeq_value (fun a b => a == b) (2 - 1)
          [(0, LVal.sub [(0, LVal.scalar (0 : Int))])] (0 : Int)).2
            < storage_count_max_elements 2 [2, 2]
          → ((0 : Int) == (0 : Int)) = true)) :=
  ⟨(C7_eqeq_empty_cases (fun a b => a == b) ⟨2, [2, 2], 0, []⟩
      ⟨2, [2, 2], 1, []⟩ rfl rfl).1 rfl rfl,
    (C7_eqeq_empty_cases (fun a b => a == b) ⟨2, [2, 2], 0, []⟩
      ⟨2, [2, 2], 0, [(0, LVal.sub [(0, LVal.scalar 0)])]⟩ rfl rfl).2.1 rfl
      (by simp)⟩

/-- C9: `get(storage, slice)` fails unconditionally with the NotImplemented
condition; being a pure function of its arguments, it never mutates the
storage. -/
theorem C9_get_not_implemented {α : Type} (s : LIST_STORAGE α) (slice : List Nat) :
    list_storage_get s slice
      = Except.error "This type of slicing not supported yet" := rfl

/-- C10: counting non-diagonal stored elements fails with the NotImplemented
condition whenever the rank is not exactly 2; for rank-2 storages it
returns the number of stored nodes whose row key differs from their column
key, without mutating the storage (the count is a pure function of the
tree). -/
theorem C10_count_nd_elements {α : Type} (s : LIST_STORAGE α) :
    (s.rank ≠ 2 → count_list_storage_nd_elements s
      = Except.error "non-diagonal element counting only defined for rank = 2")
    ∧ (s.rank = 2 → count_list_storage_nd_elements s
      = Except.ok ((s.rows.map
          (fun p => (p.2.asList.filter (fun q => decide (p.1 ≠ q.1))).length)).sum)) := by
  constructor
  · intro h
    simp [count_list_storage_nd_elements, h]
  · intro h
    simp [count_list_storage_nd_elements, h, count_nd_rows_sum]

/-- Witness for C10: a rank-3 storage is refused; a rank-2 storage holding
entries at (0,0), (0,2) and (1,0) has two off-diagonal elements. -/
theorem C10_count_nd_witness :
    ((⟨3, [2, 2, 2], (0 : Int), []⟩ : LIST_STORAGE Int).rank ≠ 2
      ∧ count_list_storage_nd_elements (⟨3, [2, 2, 2], (0 : Int), []⟩ : LIST_STORAGE Int)
        = Except.error "non-diagonal element counting only defined for rank = 2")
    ∧ ((⟨2, [3, 3], (0 : Int),
          [(0, LVal.sub [(0, LVal.scalar 1), (2, LVal.scalar 3)]),
            (1, LVal.sub [(0, LVal.scalar 4)])]⟩ : LIST_STORAGE Int).rank = 2
      ∧ count_list_storage_nd_elements
          (⟨2, [3, 3], (0 : Int),
            [(0, LVal.sub [(0, LVal.scalar 1), (2, LVal.scalar 3)]),
              (1, LVal.sub [(0, LVal.scalar 4)])]⟩ : LIST_STORAGE Int)
        = Except.ok 2) :=
  ⟨⟨by decide,
      (C10_count_nd_elements ⟨3, [2, 2, 2], 0, []⟩).1 (by decide)⟩,
    ⟨rfl, by
      rw [(C10_count_nd_elements
        ⟨2, [3, 3], 0,
          [(0, LVal.sub [(0, LVal.scalar 1), (2, LVal.scalar 3)]),
            (1, LVal.sub [(0, LVal.scalar 4)])]⟩).2 rfl]
      rfl⟩⟩
